import Mathlib

/-!
Verification of the go-sse event-stream client.

Part 1 embeds the wire-format parser (Reader.Next in reader.go) and the
two encoders (Event.Encode in event.go, Event.Write in event.go's later
revision).  Bytes are modelled as Char lists; all byte values occurring in
the format are ASCII, so this is faithful.

Part 2 embeds the reconnecting session (EventSource in event_source.go)
as an explicit state machine driven by an oracle list of connection
attempts, recording the requests performed, the backoff waits slept and
the response bodies closed.
-/

/-- Event, the parsed wire event of reader.go: ID, Name, Data. -/
structure Event where
  id : List Char
  name : List Char
  data : List Char
deriving DecidableEq

/-- Models one `reader.buf.ReadString('\n')` call followed by the
immediate `line = line[0:len(line)-1]` trim of the delimiter: returns the
line without its terminating line-feed plus the remaining input, or
`none` when the input ends before a line-feed is found (the Go code
discards the partial line and propagates the read error / EOF). -/
def readLine : List Char → Option (List Char × List Char)
  | [] => none
  | c :: rest =>
    if c = '\n' then some ([], rest)
    else
      match readLine rest with
      | none => none
      | some (l, r) => some (c :: l, r)

/-- Models `strings.SplitN(line, ":", 2)`: the text before the first
colon, and `some` of the text after it when a colon exists. -/
def splitN2 : List Char → List Char × Option (List Char)
  | [] => ([], none)
  | c :: rest =>
    if c = ':' then ([], some rest)
    else
      match splitN2 rest with
      | (f, v) => (c :: f, v)

/-- Models the single-leading-space trim applied to a field value:
`if len(value) > 0 && value[0] == ' ' { value = value[1:] }`. -/
def trimOneSpace : List Char → List Char
  | ' ' :: rest => rest
  | l => l

/-- The per-line body of Reader.Next's loop for a non-blank line: the
comment check (`line[0] == ':'`), the SplitN field/value split, the
one-space trim, and the switch on the field name updating the in-progress
event accumulator and the id-present flag. -/
def procLine : Event × Bool → List Char → Event × Bool :=
  fun s line =>
    if line.head? = some ':' then s
    else
      match splitN2 line with
      | (field, ov) =>
        let value := trimOneSpace (ov.getD [])
        if field = ['i', 'd'] then ({ s.1 with id := value }, true)
        else if field = ['e', 'v', 'e', 'n', 't'] then ({ s.1 with name := value }, s.2)
        else if field = ['d', 'a', 't', 'a'] then
          ({ s.1 with data := s.1.data ++ (value ++ ['\n']) }, s.2)
        else s

/-- Folding procLine over a list of lines. -/
def procLines (s : Event × Bool) (ls : List (List Char)) : Event × Bool :=
  ls.foldl procLine s

/-- The accumulator at the start of Reader.Next: the event id defaults to
the reader's remembered last id, name and data are empty. -/
def initEvent (lastID : List Char) : Event :=
  { id := lastID, name := [], data := [] }

/-- The loop of Reader.Next.  On a blank line: skip if the data buffer is
empty (the accumulator is NOT reset, faithful to the `continue`),
otherwise dispatch, updating the remembered id only when an id line was
explicitly present and stripping one trailing separator from the data.
The fuel argument only bounds the recursion; readerNext supplies more
fuel than the input length, so exhaustion is unreachable. -/
def nextLoop (lastID : List Char) : Event → Bool → List Char → Nat →
    Option (Event × List Char × List Char)
  | _, _, _, 0 => none
  | ev, ip, input, fuel + 1 =>
    match readLine input with
    | none => none
    | some (line, rest) =>
      if line = [] then
        if ev.data = [] then nextLoop lastID ev ip rest fuel
        else some ({ ev with data := ev.data.dropLast },
                   if ip then ev.id else lastID, rest)
      else
        match procLine (ev, ip) line with
        | (ev2, ip2) => nextLoop lastID ev2 ip2 rest fuel

/-- Reader.Next: given the reader's remembered last id and the remaining
byte stream, returns `some (event, new remembered id, remaining stream)`
on dispatch and `none` on end of input (io.EOF) or read error. -/
def readerNext (lastID input : List Char) : Option (Event × List Char × List Char) :=
  nextLoop lastID (initEvent lastID) false input (input.length + 1)

/-- Models `bytes.Split(data, []byte("\n"))`: Go returns one (possibly
empty) fragment per separator-delimited segment, and `[""]` for empty
input. -/
def bytesSplitNl : List Char → List (List Char)
  | [] => [[]]
  | c :: rest =>
    if c = '\n' then [] :: bytesSplitNl rest
    else
      match bytesSplitNl rest with
      | [] => [[c]]
      | l :: ls => (c :: l) :: ls

/-- One encoded data line: the bare token `data` for an empty fragment,
otherwise `data: ` followed by the fragment. -/
def dataLine (l : List Char) : List Char :=
  if l = [] then ['d', 'a', 't', 'a'] else ['d', 'a', 't', 'a', ':', ' '] ++ l

/-- Event.Encode from event.go: the header produced by
`fmt.Sprintf("id: %s\nevent: %s\n", ...)`, one data line (each with its
line-feed) per fragment of `bytes.Split(event.Data, "\n")`, and the
terminating blank line. -/
def Event.encode (e : Event) : List Char :=
  (['i', 'd', ':', ' '] ++ e.id ++ ['\n'] ++
   ['e', 'v', 'e', 'n', 't', ':', ' '] ++ e.name ++ ['\n'])
  ++ ((bytesSplitNl e.data).map (fun l => dataLine l ++ ['\n'])).flatten
  ++ ['\n']

/-- The chunks written by Event.Write (event.go, later revision): one
Fprintf for the id line, one for the event line, one per data line, one
for the terminating blank line; the model assumes every write succeeds,
matching the no-write-error case. -/
def Event.writeChunks (e : Event) : List (List Char) :=
  (['i', 'd', ':', ' '] ++ e.id ++ ['\n'])
  :: (['e', 'v', 'e', 'n', 't', ':', ' '] ++ e.name ++ ['\n'])
  :: ((bytesSplitNl e.data).map (fun l => dataLine l ++ ['\n'])
      ++ [['\n']])

/-- The full byte sequence Event.Write sends to its destination when no
write error occurs. -/
def Event.write (e : Event) : List Char :=
  e.writeChunks.flatten

/-- A list of lines rendered back to a byte stream, each line followed by
its line-feed; a blank line renders as a lone line-feed. -/
def encodeLines (ls : List (List Char)) : List Char :=
  (ls.map (fun l => l ++ ['\n'])).flatten

/-- A line that Reader.Next treats as an id line: not a comment, and its
field name (the text before the first colon) is `id`. -/
def IsIdLine (l : List Char) : Prop :=
  l.head? ≠ some ':' ∧ (splitN2 l).1 = ['i', 'd']

instance (l : List Char) : Decidable (IsIdLine l) := by
  unfold IsIdLine
  infer_instance

/-- The value an id line assigns: the text after the first colon with one
leading space trimmed, empty when the line has no colon. -/
def idValue (l : List Char) : List Char :=
  trimOneSpace ((splitN2 l).2.getD [])

/-- Durations are modelled in nanoseconds; time.Second. -/
def timeSecond : Nat := 1000000000

/-- The session-level Event of event_source.go: the fields the session
reads are ID and Retry (the retry directive, zero when absent); Name and
Data ride along so the dispatched event is returned whole. -/
structure SEvent where
  id : List Char
  name : List Char
  data : List Char
  retry : Nat
deriving DecidableEq

/-- One outcome of `source.currentReadCloser.Next()`: a dispatched event,
io.EOF, or any other read error. -/
inductive ReadResult where
  | ev (e : SEvent)
  | eof
  | fail
deriving DecidableEq

/-- The EventSource session state.  The current read closer is modelled
as the list of outcomes its remaining reads will produce; Client and
CreateRequest are opaque collaborators and live in the attempt oracle. -/
structure SourceState where
  defaultRetryInterval : Nat
  currentReadCloser : Option (List ReadResult)
  lastEventID : List Char
  retryInterval : Nat
  closed : Bool
deriving DecidableEq

/-- One outcome of `source.Client.Do(req)`: a transport error, or a
response carrying a status code and a body (the stream of read outcomes
NewReadCloser would produce from it). -/
inductive ConnAttempt where
  | doErr
  | resp (status : Nat) (body : List ReadResult)
deriving DecidableEq

/-- Observable activity: the Last-Event-ID header of every request
performed, every backoff wait slept, and how many response bodies were
discarded via Body.Close(). -/
structure Trace where
  requests : List (List Char)
  waits : List Nat
  bodiesClosed : Nat
deriving DecidableEq

/-- The empty trace: no network activity, no waits. -/
def Trace.empty : Trace := ⟨[], [], 0⟩

/-- Trace concatenation, in chronological order. -/
def Trace.append (t u : Trace) : Trace :=
  ⟨t.requests ++ u.requests, t.waits ++ u.waits, t.bodiesClosed + u.bodiesClosed⟩

/-- waitForRetry from event_source.go: sleep the event-supplied retry
interval if non-zero, else the configured default if non-zero, else one
second. -/
def waitForRetry (st : SourceState) : Nat :=
  if st.retryInterval ≠ 0 then st.retryInterval
  else if st.defaultRetryInterval ≠ 0 then st.defaultRetryInterval
  else timeSecond

/-- Outcome of Connect: success, the terminal BadResponseError carrying
the rejected response's status, or exhaustion of the attempt oracle
(modelling the loop still retrying). -/
inductive ConnectResult where
  | ok
  | badResponse (status : Nat)
  | outOfAttempts
deriving DecidableEq

/-- Result, post-state, observable trace and unconsumed attempts of a
Connect call. -/
structure ConnectOut where
  result : ConnectResult
  state : SourceState
  trace : Trace
  remaining : List ConnAttempt
deriving DecidableEq

/-- The retry loop of Connect: each iteration creates a request carrying
the Last-Event-ID header and performs it.  A transport error waits and
retries; status 200 installs the new read closer and clears the closed
flag; the four server-error statuses close the body, wait and retry; any
other status closes the body and fails with BadResponseError. -/
def connectLoop : SourceState → List ConnAttempt → ConnectOut
  | st, [] => ⟨.outOfAttempts, st, Trace.empty, []⟩
  | st, .doErr :: rest =>
    let o := connectLoop st rest
    ⟨o.result, o.state,
     ⟨st.lastEventID :: o.trace.requests, waitForRetry st :: o.trace.waits,
      o.trace.bodiesClosed⟩, o.remaining⟩
  | st, .resp status body :: rest =>
    if status = 200 then
      ⟨.ok, { st with currentReadCloser := some body, closed := false },
       ⟨[st.lastEventID], [], 0⟩, rest⟩
    else if status = 500 ∨ status = 502 ∨ status = 503 ∨ status = 504 then
      let o := connectLoop st rest
      ⟨o.result, o.state,
       ⟨st.lastEventID :: o.trace.requests, waitForRetry st :: o.trace.waits,
        o.trace.bodiesClosed + 1⟩, o.remaining⟩
    else
      ⟨.badResponse status, st, ⟨[st.lastEventID], [], 1⟩, rest⟩

/-- Connect from event_source.go: a no-op returning success while a read
closer is already held, otherwise the retry loop. -/
def connect (st : SourceState) (atts : List ConnAttempt) : ConnectOut :=
  if st.currentReadCloser.isSome then ⟨.ok, st, Trace.empty, atts⟩
  else connectLoop st atts

/-- Close from event_source.go: sets the closed flag and drops (closing)
the current read closer, in the same exclusion scope. -/
def closeSource (st : SourceState) : SourceState :=
  { st with closed := true, currentReadCloser := none }

/-- Outcome of Next: a dispatched event, io.EOF, ErrReadFromClosedSource,
a terminal BadResponseError, or exhaustion of the attempt oracle. -/
inductive NextResult where
  | ev (e : SEvent)
  | eofErr
  | closedErr
  | badResponse (status : Nat)
  | outOfAttempts
deriving DecidableEq

/-- Result, post-state, observable trace and unconsumed attempts of a
Next call. -/
structure NextOut where
  result : NextResult
  state : SourceState
  trace : Trace
  remaining : List ConnAttempt
deriving DecidableEq

/-- The retry loop of Next: ensure a live stream via connect (propagating
its failures), read one item from the current read closer; on success
record the event id (and a non-zero retry directive) and return the
event; on EOF close the source internally and report EOF; on any other
read error re-check the closed flag, then drop the broken stream, wait,
and reconnect.  A read from a stream with no further outcomes is a read
that never returns and is modelled as exhaustion, as is running out of
fuel; nextSource supplies more fuel than attempts, so the loop only stops
for one of the listed reasons. -/
def nextLoopS : Nat → SourceState → List ConnAttempt → NextOut
  | 0, st, atts => ⟨.outOfAttempts, st, Trace.empty, atts⟩
  | fuel + 1, st, atts =>
    let c := connect st atts
    match c.result with
    | .badResponse s => ⟨.badResponse s, c.state, c.trace, c.remaining⟩
    | .outOfAttempts => ⟨.outOfAttempts, c.state, c.trace, c.remaining⟩
    | .ok =>
      match c.state.currentReadCloser with
      | none => ⟨.outOfAttempts, c.state, c.trace, c.remaining⟩
      | some [] => ⟨.outOfAttempts, c.state, c.trace, c.remaining⟩
      | some (.ev e :: body) =>
        ⟨.ev e,
         { c.state with currentReadCloser := some body,
                        lastEventID := e.id,
                        retryInterval := if e.retry ≠ 0 then e.retry
                                         else c.state.retryInterval },
         c.trace, c.remaining⟩
      | some (.eof :: body) =>
        ⟨.eofErr, closeSource { c.state with currentReadCloser := some body },
         c.trace, c.remaining⟩
      | some (.fail :: body) =>
        if c.state.closed then
          ⟨.closedErr, { c.state with currentReadCloser := some body },
           c.trace, c.remaining⟩
        else
          let st2 := { c.state with currentReadCloser := none }
          let o := nextLoopS fuel st2 c.remaining
          ⟨o.result, o.state,
           Trace.append c.trace (Trace.append ⟨[], [waitForRetry st2], 0⟩ o.trace),
           o.remaining⟩

/-- Next from event_source.go: fails immediately with
ErrReadFromClosedSource while the closed flag is set, otherwise runs the
retry loop. -/
def nextSource (st : SourceState) (atts : List ConnAttempt) : NextOut :=
  if st.closed then ⟨.closedErr, st, Trace.empty, atts⟩
  else nextLoopS (atts.length + 2) st atts

/-- The session invariant: whenever the closed flag is set, no read
closer is held. -/
def sourceInv (st : SourceState) : Prop :=
  st.closed = true → st.currentReadCloser = none

instance (st : SourceState) : Decidable (sourceInv st) := by
  unfold sourceInv
  infer_instance

theorem readLine_complete (l rest : List Char) (h : '\n' ∉ l) :
    readLine (l ++ '\n' :: rest) = some (l, rest) := by
  induction l with
  | nil => simp [readLine]
  | cons c l ih =>
    have hc : c ≠ '\n' := by
      intro hh
      exact h (hh ▸ List.mem_cons_self c l)
    have hl : '\n' ∉ l := fun hm => h (List.mem_cons_of_mem c hm)
    simp [readLine, hc, ih hl]

theorem readLine_some_shape (input l rest : List Char)
    (h : readLine input = some (l, rest)) : input = l ++ '\n' :: rest := by
  induction input generalizing l rest with
  | nil => simp [readLine] at h
  | cons c input ih =>
    by_cases hc : c = '\n'
    · subst hc
      simp [readLine] at h
      simp [h.1.symm, h.2.symm]
    · simp [readLine, hc] at h
      match hr : readLine input with
      | none => rw [hr] at h; simp at h
      | some (l2, r2) =>
        rw [hr] at h
        simp at h
        have := ih l2 r2 hr
        rw [this, ← h.1, h.2]
        simp

theorem readLine_some_length (input l rest : List Char)
    (h : readLine input = some (l, rest)) : rest.length < input.length := by
  rw [readLine_some_shape input l rest h]
  simp
  omega

theorem nextLoop_fuel_mono (lastID : List Char) :
    ∀ (f g : Nat) (ev : Event) (ip : Bool) (input : List Char),
      input.length < f → input.length < g →
      nextLoop lastID ev ip input f = nextLoop lastID ev ip input g := by
  intro f
  induction f with
  | zero => intro g ev ip input hf; omega
  | succ f ih =>
    intro g ev ip input hf hg
    match g, hg with
    | g + 1, hg =>
      show nextLoop lastID ev ip input (f + 1) = nextLoop lastID ev ip input (g + 1)
      rw [nextLoop, nextLoop]
      match hr : readLine input with
      | none => rfl
      | some (line, rest) =>
        have hlen := readLine_some_length input line rest hr
        have hf2 : rest.length < f := by omega
        have hg2 : rest.length < g := by omega
        by_cases hline : line = []
        · simp [hline]
          by_cases hd : ev.data = []
          · simp [hd, ih g ev ip rest hf2 hg2]
          · simp [hd]
        · simp [hline]
          exact ih g _ _ rest hf2 hg2

theorem encodeLines_nil : encodeLines [] = [] := rfl

theorem encodeLines_cons (l : List Char) (ls : List (List Char)) :
    encodeLines (l :: ls) = l ++ '\n' :: encodeLines ls := by
  simp [encodeLines]

theorem procLines_nil (s : Event × Bool) : procLines s [] = s := rfl

theorem procLines_cons (s : Event × Bool) (l : List Char) (ls : List (List Char)) :
    procLines s (l :: ls) = procLines (procLine s l) ls := rfl

theorem nextLoop_encodeLines (lastID : List Char) :
    ∀ (ls : List (List Char)) (ev : Event) (ip : Bool) (tail : List Char) (fuel : Nat),
      (∀ l ∈ ls, l ≠ [] ∧ '\n' ∉ l) →
      (encodeLines ls ++ tail).length < fuel →
      nextLoop lastID ev ip (encodeLines ls ++ tail) fuel =
        nextLoop lastID (procLines (ev, ip) ls).1 (procLines (ev, ip) ls).2 tail
          (tail.length + 1) := by
  intro ls
  induction ls with
  | nil =>
    intro ev ip tail fuel _ hfuel
    rw [encodeLines_nil, List.nil_append] at hfuel ⊢
    exact nextLoop_fuel_mono lastID fuel (tail.length + 1) ev ip tail hfuel (Nat.lt_succ_self _)
  | cons l ls ih =>
    intro ev ip tail fuel hwf hfuel
    have hl := hwf l (List.mem_cons_self l ls)
    rw [encodeLines_cons, List.append_assoc, List.cons_append] at hfuel ⊢
    match fuel, hfuel with
    | fuel + 1, hfuel =>
      rw [nextLoop]
      rw [readLine_complete l (encodeLines ls ++ tail) hl.2]
      simp only [hl.1, if_false]
      have hrec : (encodeLines ls ++ tail).length < fuel := by
        have : (l ++ '\n' :: (encodeLines ls ++ tail)).length =
            l.length + 1 + (encodeLines ls ++ tail).length := by simp; omega
        omega
      match hp : procLine (ev, ip) l with
      | (ev2, ip2) =>
        rw [procLines_cons, hp]
        exact ih ev2 ip2 tail fuel (fun x hx => hwf x (List.mem_cons_of_mem l hx)) hrec

theorem readerNext_block (lastID tail : List Char) (ls : List (List Char))
    (hwf : ∀ l ∈ ls, l ≠ [] ∧ '\n' ∉ l) :
    readerNext lastID (encodeLines ls ++ '\n' :: tail) =
      (if (procLines (initEvent lastID, false) ls).1.data = [] then
        nextLoop lastID (procLines (initEvent lastID, false) ls).1
          (procLines (initEvent lastID, false) ls).2 tail (tail.length + 1)
      else
        some ({ (procLines (initEvent lastID, false) ls).1 with
                  data := (procLines (initEvent lastID, false) ls).1.data.dropLast },
              if (procLines (initEvent lastID, false) ls).2 then
                (procLines (initEvent lastID, false) ls).1.id
              else lastID, tail)) := by
  rw [readerNext]
  rw [nextLoop_encodeLines lastID ls (initEvent lastID) false ('\n' :: tail) _ hwf
      (Nat.lt_succ_self _)]
  rw [nextLoop]
  have : readLine ('\n' :: tail) = some ([], tail) := by simp [readLine]
  rw [this]
  simp only [List.length_cons]
  by_cases hd : (procLines (initEvent lastID, false) ls).1.data = []
  · simp [hd]
  · simp [hd]

theorem procLine_idLine (s : Event × Bool) (v : List Char) :
    procLine s (['i', 'd', ':', ' '] ++ v) = ({ s.1 with id := v }, true) := rfl

theorem procLine_eventLine (s : Event × Bool) (v : List Char) :
    procLine s (['e', 'v', 'e', 'n', 't', ':', ' '] ++ v) = ({ s.1 with name := v }, s.2) := rfl

theorem procLine_dataLine (s : Event × Bool) (f : List Char) :
    procLine s (dataLine f) = ({ s.1 with data := s.1.data ++ (f ++ ['\n']) }, s.2) := by
  match f with
  | [] => rfl
  | c :: f => rfl

theorem bytesSplitNl_ne_nil (d : List Char) : bytesSplitNl d ≠ [] := by
  match d with
  | [] => simp [bytesSplitNl]
  | c :: rest =>
    by_cases hc : c = '\n'
    · simp [bytesSplitNl, hc]
    · simp only [bytesSplitNl, hc, if_false]
      match h : bytesSplitNl rest with
      | [] => simp
      | l :: ls => simp

theorem bytesSplitNl_no_nl (d : List Char) : ∀ f ∈ bytesSplitNl d, '\n' ∉ f := by
  induction d with
  | nil => intro f hf; simp [bytesSplitNl] at hf; simp [hf]
  | cons c rest ih =>
    intro f hf
    by_cases hc : c = '\n'
    · rw [bytesSplitNl, if_pos hc] at hf
      rcases List.mem_cons.1 hf with h | h
      · simp [h]
      · exact ih f h
    · rw [bytesSplitNl, if_neg hc] at hf
      match h : bytesSplitNl rest, bytesSplitNl_ne_nil rest with
      | l :: ls, _ =>
        rw [h] at hf
        rcases List.mem_cons.1 hf with h2 | h2
        · subst h2
          intro hm
          rcases List.mem_cons.1 hm with h3 | h3
          · exact hc h3.symm
          · exact ih l (h ▸ List.mem_cons_self l ls) h3
        · exact ih f (h ▸ List.mem_cons_of_mem l h2)

theorem bytesSplitNl_unsplit (d : List Char) :
    ((bytesSplitNl d).map (fun f => f ++ ['\n'])).flatten = d ++ ['\n'] := by
  induction d with
  | nil => rfl
  | cons c rest ih =>
    by_cases hc : c = '\n'
    · subst hc
      rw [bytesSplitNl, if_pos rfl]
      simp only [List.map_cons, List.flatten_cons, ih]
      rfl
    · rw [bytesSplitNl, if_neg hc]
      match h : bytesSplitNl rest, bytesSplitNl_ne_nil rest with
      | l :: ls, _ =>
        rw [h] at ih
        simp only [List.map_cons, List.flatten_cons] at ih ⊢
        simp only [List.cons_append, List.append_assoc] at ih ⊢
        rw [ih]

theorem procLines_dataLines (frags : List (List Char)) :
    ∀ (s : Event × Bool),
      procLines s (frags.map dataLine) =
        ({ s.1 with data := s.1.data ++ (frags.map (fun f => f ++ ['\n'])).flatten }, s.2) := by
  induction frags with
  | nil => intro s; simp [procLines]
  | cons f frags ih =>
    intro s
    simp only [List.map_cons]
    rw [procLines_cons, procLine_dataLine, ih]
    simp

theorem dataLine_ne_nil (f : List Char) : dataLine f ≠ [] := by
  by_cases h : f = [] <;> simp [dataLine, h]

theorem dataLine_no_nl (f : List Char) (h : '\n' ∉ f) : '\n' ∉ dataLine f := by
  by_cases hf : f = [] <;> simp [dataLine, hf, h]

theorem encode_eq_encodeLines (e : Event) :
    e.encode = encodeLines ((['i', 'd', ':', ' '] ++ e.id)
        :: (['e', 'v', 'e', 'n', 't', ':', ' '] ++ e.name)
        :: (bytesSplitNl e.data).map dataLine) ++ '\n' :: [] := by
  rw [encodeLines_cons, encodeLines_cons]
  simp only [Event.encode, encodeLines, List.map_map]
  simp [Function.comp_def]

/-- C1 (amended): for every event whose id and name contain no line-feed
(the data payload is arbitrary, including embedded and trailing
separators), parsing the encoding dispatches an equal event, consuming
the whole stream and remembering the id. -/
theorem encode_readerNext_roundTrip (e : Event) (lastID : List Char)
    (hid : '\n' ∉ e.id) (hname : '\n' ∉ e.name) :
    readerNext lastID e.encode = some (e, e.id, []) := by
  rw [encode_eq_encodeLines]
  rw [readerNext_block]
  · rw [procLines_cons, procLine_idLine, procLines_cons, procLine_eventLine,
        procLines_dataLines, bytesSplitNl_unsplit]
    simp [initEvent]
  · intro l hl
    rcases List.mem_cons.1 hl with h | h
    · subst h
      exact ⟨by simp, by simp [hid]⟩
    · rcases List.mem_cons.1 h with h2 | h2
      · subst h2
        exact ⟨by simp, by simp [hname]⟩
      · rcases List.mem_map.1 h2 with ⟨f, hf, hfe⟩
        subst hfe
        exact ⟨dataLine_ne_nil f, dataLine_no_nl f (bytesSplitNl_no_nl e.data f hf)⟩

theorem procLine_not_id (s : Event × Bool) (l : List Char) (h : ¬IsIdLine l) :
    (procLine s l).1.id = s.1.id ∧ (procLine s l).2 = s.2 := by
  rw [procLine]
  by_cases hc : l.head? = some ':'
  · simp [hc]
  · simp only [hc, if_false]
    match hs : splitN2 l with
    | (field, ov) =>
      have hfield : field ≠ ['i', 'd'] := by
        intro hf
        exact h ⟨hc, by rw [hs, hf]⟩
      simp only [hfield, if_false]
      by_cases he : field = ['e', 'v', 'e', 'n', 't']
      · simp [he]
      · simp only [he, if_false]
        by_cases hd : field = ['d', 'a', 't', 'a'] <;> simp [hd]

theorem procLines_not_id (ls : List (List Char)) :
    ∀ (s : Event × Bool), (∀ l ∈ ls, ¬IsIdLine l) →
      (procLines s ls).1.id = s.1.id ∧ (procLines s ls).2 = s.2 := by
  induction ls with
  | nil => intro s _; exact ⟨rfl, rfl⟩
  | cons l ls ih =>
    intro s hall
    rw [procLines_cons]
    have h1 := procLine_not_id s l (hall l (List.mem_cons_self l ls))
    have h2 := ih (procLine s l) (fun x hx => hall x (List.mem_cons_of_mem l hx))
    exact ⟨h2.1.trans h1.1, h2.2.trans h1.2⟩

theorem procLine_id (s : Event × Bool) (l : List Char) (h : IsIdLine l) :
    procLine s l = ({ s.1 with id := idValue l }, true) := by
  rw [procLine]
  simp only [h.1, if_false]
  match hs : splitN2 l with
  | (field, ov) =>
    have : field = ['i', 'd'] := by
      have := h.2
      rw [hs] at this
      exact this
    simp [this, idValue, hs]

/-- C4 (amended): a blank line met while the pending data buffer is
empty dispatches nothing and parsing continues, but the accumulator
(pending id, name, id-present flag) is retained rather than reset:
the parse is exactly as if the blank line were absent, so fields
accumulated before it can appear in the next dispatched event. -/
theorem blank_line_empty_data_retains (lastID tail : List Char) (ls : List (List Char))
    (hwf : ∀ l ∈ ls, l ≠ [] ∧ '\n' ∉ l)
    (hd : (procLines (initEvent lastID, false) ls).1.data = []) :
    readerNext lastID (encodeLines ls ++ '\n' :: tail) =
      readerNext lastID (encodeLines ls ++ tail) := by
  rw [readerNext_block lastID tail ls hwf, if_pos hd, readerNext]
  rw [nextLoop_encodeLines lastID ls (initEvent lastID) false tail _ hwf (Nat.lt_succ_self _)]

/-- C5: a block with an explicit id line (last one winning), even an
empty one, dispatches with exactly that id and updates the remembered
last id to it; a block with no id line dispatches with the inherited
remembered id, which stays unchanged — so an explicit empty id is
distinguishable from an omitted id. -/
theorem reader_id_explicit_vs_omitted (lastID tail : List Char) (ls : List (List Char))
    (hwf : ∀ l ∈ ls, l ≠ [] ∧ '\n' ∉ l)
    (hd : (procLines (initEvent lastID, false) ls).1.data ≠ []) :
    ((∀ l ∈ ls, ¬IsIdLine l) →
      ∃ e, readerNext lastID (encodeLines ls ++ '\n' :: tail) = some (e, lastID, tail) ∧
        e.id = lastID)
    ∧ (∀ ls₁ idl ls₂, ls = ls₁ ++ idl :: ls₂ → IsIdLine idl →
        (∀ l ∈ ls₂, ¬IsIdLine l) →
      ∃ e, readerNext lastID (encodeLines ls ++ '\n' :: tail) =
          some (e, idValue idl, tail) ∧ e.id = idValue idl) := by
  rw [readerNext_block lastID tail ls hwf, if_neg hd]
  constructor
  · intro hno
    have h := procLines_not_id ls (initEvent lastID, false) hno
    have hid0 : (procLines (initEvent lastID, false) ls).1.id = lastID := h.1
    have hip0 : (procLines (initEvent lastID, false) ls).2 = false := h.2
    refine ⟨{ (procLines (initEvent lastID, false) ls).1 with
              data := (procLines (initEvent lastID, false) ls).1.data.dropLast }, ?_, ?_⟩
    · rw [hip0]
      simp
    · exact hid0
  · intro ls₁ idl ls₂ hsplit hidl hno₂
    have expand : procLines (initEvent lastID, false) ls
        = procLines (({ (procLines (initEvent lastID, false) ls₁).1 with
              id := idValue idl }, true)) ls₂ := by
      rw [hsplit]
      show List.foldl procLine (initEvent lastID, false) (ls₁ ++ idl :: ls₂) = _
      rw [List.foldl_append, List.foldl_cons]
      rw [show List.foldl procLine (initEvent lastID, false) ls₁
            = procLines (initEvent lastID, false) ls₁ from rfl]
      rw [procLine_id _ idl hidl]
      rfl
    have h2 := procLines_not_id ls₂
      (({ (procLines (initEvent lastID, false) ls₁).1 with id := idValue idl }, true)) hno₂
    have hid2 : (procLines (initEvent lastID, false) ls).1.id = idValue idl := by
      rw [expand]
      exact h2.1
    have hip2 : (procLines (initEvent lastID, false) ls).2 = true := by
      rw [expand]
      exact h2.2
    refine ⟨{ (procLines (initEvent lastID, false) ls).1 with
              data := (procLines (initEvent lastID, false) ls).1.data.dropLast }, ?_, ?_⟩
    · rw [hip2]
      simp [hid2]
    · exact hid2

/-- C5 witness: with remembered id 7, a block whose id line is the bare
token id (explicit empty id) dispatches with the empty id and resets the
remembered id to empty. -/
theorem reader_id_explicit_vs_omitted_witness :
    ∃ e, readerNext ['7']
        (encodeLines [['i', 'd'], ['d', 'a', 't', 'a', ':', ' ', 'x']] ++ '\n' :: []) =
      some (e, idValue ['i', 'd'], []) ∧ e.id = idValue ['i', 'd'] :=
  (reader_id_explicit_vs_omitted ['7'] [] [['i', 'd'], ['d', 'a', 't', 'a', ':', ' ', 'x']]
      (by decide) (by decide)).2
    [] ['i', 'd'] [['d', 'a', 't', 'a', ':', ' ', 'x']] rfl (by decide) (by decide)

/-- C1 witness: round trip of an event with multi-line data ending in a
separator. -/
theorem encode_readerNext_roundTrip_witness :
    readerNext [] (Event.encode ⟨['7'], ['n'], ['a', '\n', 'b', '\n']⟩) =
      some (⟨['7'], ['n'], ['a', '\n', 'b', '\n']⟩, ['7'], []) :=
  encode_readerNext_roundTrip ⟨['7'], ['n'], ['a', '\n', 'b', '\n']⟩ [] (by decide) (by decide)

/-- C1 counterexample: an event whose id contains a line-feed does not
round trip — the encoding parses back with an empty id. -/
theorem encode_roundTrip_newline_id_cex :
    readerNext [] (Event.encode ⟨['\n'], [], ['h']⟩) = some (⟨[], [], ['h']⟩, [], [])
    ∧ (⟨[], [], ['h']⟩ : Event) ≠ ⟨['\n'], [], ['h']⟩ := by decide

/-- C4 counterexample: a name accumulated before a blank line that is
discarded for having no data does appear in the next dispatched event. -/
theorem blank_line_reset_cex :
    readerNext [] ("event: foo\n\ndata: x\n\n".toList) =
      some (⟨[], ['f', 'o', 'o'], ['x']⟩, [], [])
    ∧ (['f', 'o', 'o'] : List Char) ≠ [] := by decide

/-- C4 witness: deleting the data-less blank line does not change the
parse. -/
theorem blank_line_empty_data_retains_witness :
    readerNext [] (encodeLines [['e', 'v', 'e', 'n', 't', ':', ' ', 'f', 'o', 'o']] ++
        '\n' :: ("data: x\n\n".toList)) =
      readerNext [] (encodeLines [['e', 'v', 'e', 'n', 't', ':', ' ', 'f', 'o', 'o']] ++
        "data: x\n\n".toList) :=
  blank_line_empty_data_retains [] ("data: x\n\n".toList)
    [['e', 'v', 'e', 'n', 't', ':', ' ', 'f', 'o', 'o']] (by decide) (by decide)

/-- C6: on the CRLF-terminated stream of the repository's own reader
test, Reader.Next dispatches nothing and reports end of input: the
carriage returns are kept in the lines, so the CR-LF pair is not a blank
line and never triggers dispatch. -/
theorem crlf_stream_never_dispatches :
    readerNext []
      (":foo bar baz\r\nid: 123\r\nevent: some-event\r\ndata: hello\r\n\r\n".toList) =
      none := by decide

/-- C9: the empty-data check runs on the buffer before the trailing
separator is stripped — a bare data line appends a lone separator, so the
following blank line dispatches an event whose final data is empty. -/
theorem bare_data_line_empty_event :
    procLine (initEvent [], false) ['d', 'a', 't', 'a'] =
      ({ initEvent [] with data := ['\n'] }, false)
    ∧ readerNext [] ("data\n\n".toList) = some (⟨[], [], []⟩, [], []) := by decide

/-- C10: when no write error occurs, Event.Write sends exactly the byte
sequence Event.Encode returns. -/
theorem write_eq_encode (e : Event) : e.write = e.encode := by
  simp [Event.write, Event.writeChunks, Event.encode, List.flatten_append,
    List.append_assoc]

theorem connect_of_none (st : SourceState) (atts : List ConnAttempt)
    (h : st.currentReadCloser = none) : connect st atts = connectLoop st atts := by
  simp [connect, h]

/-- C3: Connect classifies statuses: 200 installs the stream and clears
the closed flag; each of 500, 502, 503, 504 closes the body, waits the
backoff interval and retries with the remaining attempts; every other
status closes the body and returns a terminal bad response carrying the
status, without retrying. -/
theorem connect_status_classification (st : SourceState) (status : Nat)
    (body : List ReadResult) (rest : List ConnAttempt)
    (hnone : st.currentReadCloser = none) :
    (connect st (.resp 200 body :: rest) =
      ⟨.ok, { st with currentReadCloser := some body, closed := false },
       ⟨[st.lastEventID], [], 0⟩, rest⟩)
    ∧ ((status = 500 ∨ status = 502 ∨ status = 503 ∨ status = 504) →
      connect st (.resp status body :: rest) =
        ⟨(connectLoop st rest).result, (connectLoop st rest).state,
         ⟨st.lastEventID :: (connectLoop st rest).trace.requests,
          waitForRetry st :: (connectLoop st rest).trace.waits,
          (connectLoop st rest).trace.bodiesClosed + 1⟩,
         (connectLoop st rest).remaining⟩)
    ∧ (status ≠ 200 → ¬(status = 500 ∨ status = 502 ∨ status = 503 ∨ status = 504) →
      connect st (.resp status body :: rest) =
        ⟨.badResponse status, st, ⟨[st.lastEventID], [], 1⟩, rest⟩) := by
  refine ⟨?_, ?_, ?_⟩
  · rw [connect_of_none st _ hnone]
    simp [connectLoop]
  · intro hr
    rw [connect_of_none st _ hnone]
    have h200 : status ≠ 200 := by
      rcases hr with h | h | h | h <;> subst h <;> decide
    simp [connectLoop, h200, hr]
  · intro h200 hr
    rw [connect_of_none st _ hnone]
    simp [connectLoop, h200, hr]

/-- C3 witness: a fresh disconnected session receiving a 404 fails with
the bad response for 404 after one request, one body close, no wait. -/
theorem connect_status_classification_witness :
    connect ⟨100, none, [], 0, false⟩ [ConnAttempt.resp 404 []] =
      ⟨.badResponse 404, ⟨100, none, [], 0, false⟩, ⟨[[]], [], 1⟩, []⟩ :=
  (connect_status_classification ⟨100, none, [], 0, false⟩ 404 [] [] rfl).2.2
    (by decide) (by decide)

/-- C2: while the closed flag is set, Next fails at once with the
closed-source error, performing no request and no wait; and when the
parser reports end of data, Next closes the session internally and
reports end of data, after which every Next fails at once with the
closed-source error until a Connect succeeding with status 200 clears
the closed flag again. -/
theorem next_closed_source_and_eof (st : SourceState) (atts : List ConnAttempt)
    (body : List ReadResult) :
    (st.closed = true → nextSource st atts = ⟨.closedErr, st, Trace.empty, atts⟩)
    ∧ (st.closed = false → st.currentReadCloser = some (.eof :: body) →
        nextSource st atts =
          ⟨.eofErr, closeSource { st with currentReadCloser := some body },
           Trace.empty, atts⟩
        ∧ (closeSource { st with currentReadCloser := some body }).closed = true
        ∧ (closeSource { st with currentReadCloser := some body }).currentReadCloser = none
        ∧ (∀ atts₂, nextSource (closeSource { st with currentReadCloser := some body }) atts₂ =
            ⟨.closedErr, closeSource { st with currentReadCloser := some body },
             Trace.empty, atts₂⟩)
        ∧ ∀ (body₂ : List ReadResult) (rest₂ : List ConnAttempt),
            (connect (closeSource { st with currentReadCloser := some body })
              (ConnAttempt.resp 200 body₂ :: rest₂)).state.closed = false) := by
  constructor
  · intro h
    simp [nextSource, h]
  · intro hcl hrc
    refine ⟨?_, rfl, rfl, ?_, ?_⟩
    · rw [nextSource, if_neg (by simp [hcl])]
      show nextLoopS (atts.length + 1 + 1) st atts = _
      rw [nextLoopS]
      simp [connect, hrc]
    · intro atts₂
      simp [nextSource, closeSource]
    · intro body₂ rest₂
      simp [connect, closeSource, connectLoop]

/-- C2 witness: a stream whose next read yields EOF makes Next report
EOF and close the session, and the following Next fails immediately. -/
theorem next_closed_source_and_eof_witness :
    nextSource ⟨100, some [ReadResult.eof], ['1'], 0, false⟩ [] =
      ⟨.eofErr, ⟨100, none, ['1'], 0, true⟩, Trace.empty, []⟩
    ∧ nextSource ⟨100, none, ['1'], 0, true⟩ [] =
      ⟨.closedErr, ⟨100, none, ['1'], 0, true⟩, Trace.empty, []⟩ := by
  have h := (next_closed_source_and_eof ⟨100, some [ReadResult.eof], ['1'], 0, false⟩
    [] []).2 rfl rfl
  exact ⟨h.1, h.2.2.2.1 []⟩

theorem connectLoop_waits (st : SourceState) :
    ∀ atts, ∀ w ∈ (connectLoop st atts).trace.waits, w = waitForRetry st := by
  intro atts
  induction atts with
  | nil => simp [connectLoop, Trace.empty]
  | cons a rest ih =>
    cases a with
    | doErr =>
      intro w hw
      simp only [connectLoop] at hw
      rcases List.mem_cons.1 hw with h | h
      · exact h
      · exact ih w h
    | resp status body =>
      intro w hw
      by_cases h200 : status = 200
      · simp [connectLoop, h200] at hw
      · by_cases hr : status = 500 ∨ status = 502 ∨ status = 503 ∨ status = 504
        · simp only [connectLoop, h200, hr, if_false, if_true] at hw
          rcases List.mem_cons.1 hw with h | h
          · exact h
          · exact ih w h
        · simp [connectLoop, h200, hr] at hw

/-- C7: the backoff wait resolves, in order, the last non-zero event
retry directive, then the non-zero configured default, then one second;
every wait of the Connect retry loop uses exactly this resolution; and an
event dispatched with a non-zero retry directive overwrites the session's
interval with it. -/
theorem retry_interval_resolution (st : SourceState) (e : SEvent)
    (body : List ReadResult) (atts : List ConnAttempt) :
    (st.retryInterval ≠ 0 → waitForRetry st = st.retryInterval)
    ∧ (st.retryInterval = 0 → st.defaultRetryInterval ≠ 0 →
        waitForRetry st = st.defaultRetryInterval)
    ∧ (st.retryInterval = 0 → st.defaultRetryInterval = 0 → waitForRetry st = timeSecond)
    ∧ (∀ w ∈ (connectLoop st atts).trace.waits, w = waitForRetry st)
    ∧ (st.closed = false → st.currentReadCloser = some (.ev e :: body) → e.retry ≠ 0 →
        nextSource st atts =
          ⟨.ev e, { st with currentReadCloser := some body,
                            lastEventID := e.id,
                            retryInterval := e.retry }, Trace.empty, atts⟩) := by
  refine ⟨?_, ?_, ?_, connectLoop_waits st atts, ?_⟩
  · intro h
    simp [waitForRetry, h]
  · intro h h2
    simp [waitForRetry, h, h2]
  · intro h h2
    simp [waitForRetry, h, h2]
  · intro hcl hrc hretry
    rw [nextSource, if_neg (by simp [hcl])]
    show nextLoopS (atts.length + 1 + 1) st atts = _
    rw [nextLoopS]
    simp [connect, hrc, hretry]

/-- C7 witness: with interval unset the default of 100 is used, and a
dispatched event with directive 200 overwrites the session interval. -/
theorem retry_interval_resolution_witness :
    waitForRetry ⟨100, none, [], 0, false⟩ = 100
    ∧ nextSource ⟨100, some [ReadResult.ev ⟨['3'], [], [], 200⟩], ['2'], 0, false⟩ [] =
      ⟨.ev ⟨['3'], [], [], 200⟩, ⟨100, some [], ['3'], 200, false⟩, Trace.empty, []⟩ := by
  constructor
  · exact (retry_interval_resolution ⟨100, none, [], 0, false⟩ ⟨[], [], [], 0⟩ [] []).2.1
      rfl (by decide)
  · exact (retry_interval_resolution ⟨100, some [ReadResult.ev ⟨['3'], [], [], 200⟩],
      ['2'], 0, false⟩ ⟨['3'], [], [], 200⟩ [] []).2.2.2.2 rfl rfl (by decide)

theorem connectLoop_inv (st : SourceState) (h : sourceInv st) :
    ∀ atts, sourceInv (connectLoop st atts).state
      ∧ ((connectLoop st atts).result = .ok →
          (connectLoop st atts).state.closed = false
          ∧ (connectLoop st atts).state.currentReadCloser.isSome = true) := by
  intro atts
  induction atts with
  | nil =>
    refine ⟨h, ?_⟩
    intro hr
    simp [connectLoop] at hr
  | cons a rest ih =>
    cases a with
    | doErr =>
      simpa only [connectLoop] using ih
    | resp status body =>
      by_cases h200 : status = 200
      · subst h200
        refine ⟨?_, ?_⟩
        · intro hcl
          simp [connectLoop] at hcl
        · intro _
          simp [connectLoop]
      · by_cases hr : status = 500 ∨ status = 502 ∨ status = 503 ∨ status = 504
        · simpa only [connectLoop, h200, hr, if_false, if_true] using ih
        · refine ⟨?_, ?_⟩
          · simpa only [connectLoop, h200, hr, if_false] using h
          · intro hok
            simp [connectLoop, h200, hr] at hok

theorem connect_inv (st : SourceState) (atts : List ConnAttempt) (h : sourceInv st) :
    sourceInv (connect st atts).state
      ∧ ((connect st atts).result = .ok →
          (connect st atts).state.closed = false
          ∧ (connect st atts).state.currentReadCloser.isSome = true) := by
  by_cases hrc : st.currentReadCloser.isSome
  · have hcl : st.closed = false := by
      cases hc : st.closed with
      | false => rfl
      | true =>
        rw [h hc] at hrc
        simp at hrc
    have hconn : connect st atts = ⟨.ok, st, Trace.empty, atts⟩ := by
      simp [connect, hrc]
    rw [hconn]
    exact ⟨h, fun _ => ⟨hcl, hrc⟩⟩
  · simp only [connect, hrc, if_false]
    exact connectLoop_inv st h atts

theorem nextLoopS_inv :
    ∀ (fuel : Nat) (st : SourceState) (atts : List ConnAttempt), sourceInv st →
      sourceInv (nextLoopS fuel st atts).state := by
  intro fuel
  induction fuel with
  | zero =>
    intro st atts h
    exact h
  | succ fuel ih =>
    intro st atts h
    have hc := connect_inv st atts h
    rw [nextLoopS]
    cases hres : (connect st atts).result with
    | badResponse s => simpa [hres] using hc.1
    | outOfAttempts => simpa [hres] using hc.1
    | ok =>
      have hok := hc.2 hres
      cases hrc : (connect st atts).state.currentReadCloser with
      | none => simpa [hres, hrc] using hc.1
      | some body =>
        cases body with
        | nil => simpa [hres, hrc] using hc.1
        | cons r body =>
          cases r with
          | ev e =>
            simp only [hres, hrc]
            intro habs
            simp at habs
            rw [hok.1] at habs
            exact absurd habs (by simp)
          | eof =>
            simp only [hres, hrc]
            intro _
            rfl
          | fail =>
            simp only [hres, hrc]
            rw [if_neg (by simp [hok.1])]
            exact ih { (connect st atts).state with currentReadCloser := none }
              (connect st atts).remaining (by intro _; rfl)

/-- C8: the invariant that a read closer is held only while the closed
flag is clear is preserved by Close, Connect and Next; Close both sets
the flag and releases the handle, and a Connect that succeeds has, in the
same step, installed a handle and cleared the flag. -/
theorem source_state_invariant (st : SourceState) (atts : List ConnAttempt)
    (h : sourceInv st) :
    sourceInv (closeSource st)
    ∧ (closeSource st).closed = true
    ∧ (closeSource st).currentReadCloser = none
    ∧ sourceInv (connect st atts).state
    ∧ ((connect st atts).result = .ok →
        (connect st atts).state.closed = false
        ∧ (connect st atts).state.currentReadCloser.isSome = true)
    ∧ sourceInv (nextSource st atts).state := by
  refine ⟨fun _ => rfl, rfl, rfl, (connect_inv st atts h).1, (connect_inv st atts h).2, ?_⟩
  rw [nextSource]
  by_cases hcl : st.closed = true
  · simp only [hcl, if_true]
    exact h
  · simp only [hcl, if_false]
    exact nextLoopS_inv (atts.length + 2) st atts h

/-- C8 witness: the invariant holds after closing and after a Next on a
fresh session. -/
theorem source_state_invariant_witness :
    sourceInv (closeSource ⟨100, none, [], 0, false⟩)
    ∧ sourceInv (nextSource ⟨100, none, [], 0, false⟩ []).state := by
  have h := source_state_invariant ⟨100, none, [], 0, false⟩ [] (by decide)
  exact ⟨h.1, h.2.2.2.2.2⟩
